import Mathlib

/-!
# nimp-run: a debug-string relay launcher

Shallow embedding of `src/nimp-run/nimp-run.cpp`.

The program is one `main` function talking to the operating system.  The
embedding makes the operating system an explicit input (`World`): what
`CreateProcess` answers, the sequence of answers of `WaitForDebugEvent`, the
debuggee's memory at each event, and the status `GetExitCodeProcess` stores.
The program's observable behaviour is the ordered list of calls it makes
(`Action`) together with how it ends (`Outcome`).

C strings and byte buffers are lists of `Char` (one `Char` per byte, the
terminating NUL of a C string not included).  `int` variables are `Int`;
`DWORD`, `WORD`, handles, ids and addresses are `Nat` (no arithmetic is done on
them by the program).
-/

namespace NimpRun

/-! ## Constants of `<cstdlib>` and `<windows.h>` -/

def EXIT_SUCCESS : Int := 0
def EXIT_FAILURE : Int := 1
def EXIT_PROCESS_DEBUG_EVENT : Nat := 5
def OUTPUT_DEBUG_STRING_EVENT : Nat := 8
def DEBUG_ONLY_THIS_PROCESS : Nat := 2
def DBG_CONTINUE : Nat := 0x00010002

/-! ## Data model -/

/-- A C string: the bytes before its terminating NUL. -/
abbrev CString := List Char

/-- The fields of `PROCESS_INFORMATION` filled by `CreateProcess`. -/
structure PROCESS_INFORMATION where
  hProcess : Nat
  hThread : Nat
  dwProcessId : Nat
  dwThreadId : Nat
deriving DecidableEq, Repr

/-- The fields of `DEBUG_EVENT` the program reads: the event code, the ids, and
the `u.DebugString` member (meaningful for `OUTPUT_DEBUG_STRING_EVENT`). -/
structure DEBUG_EVENT where
  dwDebugEventCode : Nat
  dwProcessId : Nat
  dwThreadId : Nat
  lpDebugStringData : Nat
  nDebugStringLength : Nat
deriving DecidableEq, Repr

/-- The debuggee's address space while it is stopped at a debug event: the byte
at each address, `none` where the address cannot be read. -/
abbrev Memory := Nat → Option Char

/-- One answer of `WaitForDebugEvent(&de, INFINITE)`: the call fails (with the
code `GetLastError` then reports), or it fills `de`; the debuggee's memory at
that moment comes with the event. -/
inductive WaitOutcome where
  | failed (lastError : Nat)
  | event (de : DEBUG_EVENT) (mem : Memory)

/-- The operating system as the program sees it. -/
structure World where
  /-- What `CreateProcess` answers for a command line: the error code, or the
  filled `PROCESS_INFORMATION`. -/
  CreateProcess : CString → Except Nat PROCESS_INFORMATION
  /-- The successive answers of `WaitForDebugEvent`; after the last one the call
  (made with `INFINITE`) never returns. -/
  debugEvents : List WaitOutcome
  /-- The `DWORD` that `GetExitCodeProcess` stores for a process handle. -/
  GetExitCodeProcess : Nat → Nat

/-- The lines `main` prints with `printf`. -/
inductive Message where
  | tooFewArguments
  | executing (target arglist : CString)
  | cannotCreateProcess (target : CString) (lastError : Nat)
  | cannotWaitForDebugEvent (lastError : Nat)
  | exited (status : Nat)
deriving DecidableEq, Repr

/-- The calls `main` makes, in the order it makes them. -/
inductive Action where
  | printf (m : Message)
  | getcwd
  | CreateProcess (commandLine : CString) (creationFlags : Nat)
  | GetLastError
  | DebugActiveProcess (pid : Nat)
  | WaitForDebugEvent
  | ReadProcessMemory (hProcess base size : Nat)
  | fwrite (bytes : List Char)
  | ContinueDebugEvent (pid tid status : Nat)
  | GetExitCodeProcess (hProcess : Nat)
  | CloseHandle (h : Nat)
deriving DecidableEq, Repr

/-- How a run of `main` ends. -/
inductive Outcome where
  /-- `main` returns this status. -/
  | returned (status : Int)
  /-- `WaitForDebugEvent(&de, INFINITE)` never returns. -/
  | blocked
  /-- A read outside a buffer: undefined behaviour. -/
  | undefined
deriving DecidableEq, Repr

/-- A run: the calls made and how it ended. -/
structure Run where
  trace : List Action
  outcome : Outcome
deriving DecidableEq, Repr

/-! ## The command line (lines 18-31) -/

/-- One pass through the body of the `for` loop of lines 19-31 followed by its
increment expression `arglist += ' '`. -/
def appendArg (arglist : CString) (arg : CString) : CString :=
  (if ' ' ∈ arg then
    ((arglist ++ ['"']) ++ arg) ++ ['"']
  else
    arglist ++ arg) ++ [' ']

/-- The loop `for (int i = 1; i < argc; ++i, arglist += ' ')` started on the
empty string. -/
def buildArglist (argv : List CString) : CString :=
  (argv.drop 1).foldl appendArg []

/-! ## The relay buffer (lines 70-72) -/

/-- What `std::vector<char>::resize(n)` does: keeps the first `n` elements, and
appends value-initialised (zero) bytes up to length `n`. -/
def resize (data : List Char) (n : Nat) : List Char :=
  data.take n ++ List.replicate (n - data.length) '\x00'

/-- The `n` bytes of the debuggee's memory from address `base` on, `none` when
one of them cannot be read. -/
def readBytes (mem : Memory) (base : Nat) : Nat → Option (List Char)
  | 0 => some []
  | n + 1 =>
    match mem base, readBytes mem (base + 1) n with
    | some c, some cs => some (c :: cs)
    | _, _ => none

/-- The call `ReadProcessMemory(hProcess, base, data.data(), data.size(), nullptr)`:
the buffer afterwards.  When the whole range is readable the buffer holds the
debuggee's bytes; otherwise the call fails and the buffer is left as it was.
The program does not look at the call's result. -/
def ReadProcessMemory (mem : Memory) (base : Nat) (data : List Char) : List Char :=
  match readBytes mem base data.length with
  | some bytes => bytes
  | none => data

/-! ## The startup filter (lines 74-75) -/

/-- The condition `cygwin_startup_skip && data.size() >= 3 && data[0] == 'c' &&
data[1] == 'Y' && data[2] == 'g'`, evaluated left to right with short-circuit.
Every `data[i]` is a checked read here: `none` is a read outside the buffer. -/
def startupFilterCond (cygwin_startup_skip : Int) (data : List Char) : Option Bool :=
  if cygwin_startup_skip = 0 then some false
  else if ¬ (data.length ≥ 3) then some false
  else
    match data[0]? with
    | none => none
    | some c0 =>
      if c0 ≠ 'c' then some false
      else
        match data[1]? with
        | none => none
        | some c1 =>
          if c1 ≠ 'Y' then some false
          else
            match data[2]? with
            | none => none
            | some c2 => some (decide (c2 = 'g'))

/-! ## The event loop (lines 50-86) -/

/-- The variables that live across iterations of the loop. -/
structure PumpState where
  data : List Char
  cygwin_startup_skip : Int
deriving DecidableEq, Repr

/-- The state at line 50-51: `std::vector<char> data; int cygwin_startup_skip = 2;`. -/
def initialPumpState : PumpState := ⟨[], 2⟩

/-- How one pass through the loop body ends. -/
inductive Step where
  /-- The end of the body is reached (after `ContinueDebugEvent`). -/
  | next (s : PumpState)
  /-- The `break` of line 65. -/
  | brk
  /-- The `return` of line 60. -/
  | ret (status : Int)
  /-- A read outside the relay buffer. -/
  | undef
deriving DecidableEq, Repr

/-- One pass through the body of `for (;;)` (lines 55-85), given the answer of
`WaitForDebugEvent`: the calls made and how the pass ends. -/
def iteration (pi : PROCESS_INFORMATION) (s : PumpState) :
    WaitOutcome → List Action × Step
  | .failed lastError =>
    ([.WaitForDebugEvent, .GetLastError, .printf (.cannotWaitForDebugEvent lastError)],
      .ret EXIT_FAILURE)
  | .event de mem =>
    if de.dwDebugEventCode = EXIT_PROCESS_DEBUG_EVENT then
      ([.WaitForDebugEvent], .brk)
    else if de.dwDebugEventCode = OUTPUT_DEBUG_STRING_EVENT then
      let data := resize s.data de.nDebugStringLength
      let data' := ReadProcessMemory mem de.lpDebugStringData data
      let read := Action.ReadProcessMemory pi.hProcess de.lpDebugStringData data.length
      match startupFilterCond s.cygwin_startup_skip data' with
      | none => ([.WaitForDebugEvent, read], .undef)
      | some true =>
        ([.WaitForDebugEvent, read,
          .ContinueDebugEvent de.dwProcessId de.dwThreadId DBG_CONTINUE],
          .next ⟨data', s.cygwin_startup_skip - 1⟩)
      | some false =>
        ([.WaitForDebugEvent, read, .fwrite data',
          .ContinueDebugEvent de.dwProcessId de.dwThreadId DBG_CONTINUE],
          .next ⟨data', s.cygwin_startup_skip⟩)
    else
      ([.WaitForDebugEvent, .ContinueDebugEvent de.dwProcessId de.dwThreadId DBG_CONTINUE],
        .next s)

/-- How the loop is left. -/
inductive LoopExit where
  | brk
  | ret (status : Int)
  | blocked
  | undef
deriving DecidableEq, Repr

/-- A run of the loop: the calls made, how it was left, and the loop variables
at that moment. -/
structure PumpRun where
  trace : List Action
  exit : LoopExit
  final : PumpState
deriving DecidableEq, Repr

/-- The loop `for (;;)` of lines 53-86 run against the successive answers of
`WaitForDebugEvent`.  When the answers are used up the next wait never
returns. -/
def pump (pi : PROCESS_INFORMATION) : List WaitOutcome → PumpState → PumpRun
  | [], s => ⟨[.WaitForDebugEvent], .blocked, s⟩
  | w :: ws, s =>
    match iteration pi s w with
    | (tr, .next s') =>
      let r := pump pi ws s'
      ⟨tr ++ r.trace, r.exit, r.final⟩
    | (tr, .brk) => ⟨tr, .brk, s⟩
    | (tr, .ret status) => ⟨tr, .ret status, s⟩
    | (tr, .undef) => ⟨tr, .undef, s⟩

/-! ## `main` (lines 10-98) -/

/-- The function `main`, with `argv` the `argc` argument strings. -/
def main (w : World) (argv : List CString) : Run :=
  if h : argv.length < 2 then
    ⟨[.printf .tooFewArguments], .returned EXIT_FAILURE⟩
  else
    let arglist := buildArglist argv
    let target := argv.get ⟨1, by omega⟩
    let start : List Action :=
      [.getcwd, .printf (.executing target arglist),
        .CreateProcess arglist DEBUG_ONLY_THIS_PROCESS]
    match w.CreateProcess arglist with
    | .error lastError =>
      ⟨start ++ [.GetLastError, .printf (.cannotCreateProcess target lastError)],
        .returned EXIT_FAILURE⟩
    | .ok pi =>
      let r := pump pi w.debugEvents initialPumpState
      let upToLoop := start ++ [.DebugActiveProcess pi.dwProcessId] ++ r.trace
      match r.exit with
      | .ret status => ⟨upToLoop, .returned status⟩
      | .blocked => ⟨upToLoop, .blocked⟩
      | .undef => ⟨upToLoop, .undefined⟩
      | .brk =>
        let exit_code := w.GetExitCodeProcess pi.hProcess
        ⟨upToLoop ++
          [.GetExitCodeProcess pi.hProcess, .printf (.exited exit_code),
            .CloseHandle pi.hProcess, .CloseHandle pi.hThread],
          .returned (if exit_code ≠ 0 then EXIT_FAILURE else EXIT_SUCCESS)⟩

/-- A memory holding `bytes` from address `base` on and nothing else. -/
def memoryAt (base : Nat) (bytes : List Char) : Memory :=
  fun a => if base ≤ a then bytes[a - base]? else none

/-! ## Vocabulary of the properties -/

/-- The three bytes the startup filter looks for. -/
def signature : List Char := ['c', 'Y', 'g']

/-- An answer of `WaitForDebugEvent` after which the loop goes round again: an
event of any kind but `EXIT_PROCESS_DEBUG_EVENT`. -/
def isServiced : WaitOutcome → Bool
  | .failed _ => false
  | .event de _ => decide (de.dwDebugEventCode ≠ EXIT_PROCESS_DEBUG_EVENT)

/-- An `OUTPUT_DEBUG_STRING_EVENT`. -/
def isDebugString : WaitOutcome → Bool
  | .failed _ => false
  | .event de _ => decide (de.dwDebugEventCode = OUTPUT_DEBUG_STRING_EVENT)

/-- The bytes `fwrite` sent to standard output, in order. -/
def forwarded (trace : List Action) : List Char :=
  (trace.filterMap fun a => match a with
    | .fwrite bytes => some bytes
    | _ => none).flatten

/-- The calls the loop body can make. -/
def isPumpAction : Action → Bool
  | .WaitForDebugEvent => true
  | .GetLastError => true
  | .printf (.cannotWaitForDebugEvent _) => true
  | .ReadProcessMemory _ _ _ => true
  | .fwrite _ => true
  | .ContinueDebugEvent _ _ _ => true
  | _ => false

/-- The relay buffer the loop body works on at a debug-string event. -/
def relayBuffer (s : PumpState) (de : DEBUG_EVENT) (mem : Memory) : List Char :=
  ReadProcessMemory mem de.lpDebugStringData (resize s.data de.nDebugStringLength)

/-- The calls of one pass through the loop body. -/
def stepTrace (pi : PROCESS_INFORMATION) (s : PumpState) (w : WaitOutcome) : List Action :=
  (iteration pi s w).1

/-- The loop variables after one pass that reaches the end of the body. -/
def stepState (pi : PROCESS_INFORMATION) (s : PumpState) (w : WaitOutcome) : PumpState :=
  match (iteration pi s w).2 with
  | .next s' => s'
  | _ => s

/-- The handles passed to `CloseHandle`, in order. -/
def closedHandles (trace : List Action) : List Nat :=
  trace.filterMap fun a => match a with
    | .CloseHandle h => some h
    | _ => none

/-- The answers the loop goes round on: those before the first ExitProcess
event or failed wait. -/
def serviced (evs : List WaitOutcome) : List WaitOutcome :=
  evs.takeWhile isServiced

/-- The payload of a debug-string event: the declared number of bytes at the
declared address of the debuggee, when they can be read. -/
def payload? : WaitOutcome → Option (List Char)
  | .failed _ => none
  | .event de mem =>
    if de.dwDebugEventCode = OUTPUT_DEBUG_STRING_EVENT then
      readBytes mem de.lpDebugStringData de.nDebugStringLength
    else none

/-- The payloads of the debug-string events the loop receives, in order. -/
def payloads (evs : List WaitOutcome) : List (List Char) :=
  (serviced evs).filterMap payload?

/-- Every debug string the loop receives can be read from the debuggee. -/
def AllReadable (evs : List WaitOutcome) : Prop :=
  ∀ w ∈ serviced evs, isDebugString w = true → (payload? w).isSome = true

/-- Whether a payload begins with the bytes `c`, `Y`, `g`. -/
def beginsWithSignature (bytes : List Char) : Bool :=
  decide (signature <+: bytes)

/-- All payloads but the first `k` that begin with the signature. -/
def exceptFirst : Nat → List (List Char) → List (List Char)
  | 0, ps => ps
  | _ + 1, [] => []
  | k + 1, p :: ps =>
    if beginsWithSignature p then exceptFirst k ps else p :: exceptFirst (k + 1) ps

/-- A call of `WaitForDebugEvent`. -/
def isWait : Action → Bool
  | .WaitForDebugEvent => true
  | _ => false

/-- A call of `ContinueDebugEvent`. -/
def isAck : Action → Bool
  | .ContinueDebugEvent _ _ _ => true
  | _ => false

/-- The process and thread ids of the `ContinueDebugEvent` calls, in order. -/
def acks (trace : List Action) : List (Nat × Nat) :=
  trace.filterMap fun a => match a with
    | .ContinueDebugEvent pid tid _ => some (pid, tid)
    | _ => none

/-- The process and thread id of a debug event. -/
def eventIds : WaitOutcome → Option (Nat × Nat)
  | .failed _ => none
  | .event de _ => some (de.dwProcessId, de.dwThreadId)

/-- The debug events the loop receives: those delivered by the successful waits
up to and including the ExitProcess event that ends the loop. -/
def received : List WaitOutcome → List WaitOutcome
  | [] => []
  | .failed _ :: _ => []
  | .event de mem :: ws =>
    if de.dwDebugEventCode = EXIT_PROCESS_DEBUG_EVENT then [.event de mem]
    else .event de mem :: received ws

/-- The calls of one pass of the loop that services the event `w`: the wait that
received it first, the acknowledgment with its ids last, and no other wait or
acknowledgment between them. -/
def IsServicingPass (w : WaitOutcome) (pass : List Action) : Prop :=
  ∃ de mem body, w = .event de mem ∧
    pass = .WaitForDebugEvent ::
      (body ++ [.ContinueDebugEvent de.dwProcessId de.dwThreadId DBG_CONTINUE]) ∧
    ∀ a ∈ body, isWait a = false ∧ isAck a = false

/-- The piece of the command line for one argument, in the specification's
words: the argument followed by one space when it holds no space, the argument
between two double quotes followed by one space when it holds one. -/
def specPiece (a : CString) : CString :=
  if ' ' ∈ a then ['"'] ++ a ++ ['"'] ++ [' '] else a ++ [' ']

/-- The text of a piece before its closing space: the argument, between double
quotes when it holds a space. -/
def quotedOrBare (a : CString) : CString :=
  if ' ' ∈ a then ['"'] ++ a ++ ['"'] else a

/-- A string that ends with exactly one space: its last character is a space
and the one before it, if any, is not. -/
def EndsWithOneSpace (s : CString) : Prop :=
  s.getLast? = some ' ' ∧ s.dropLast.getLast? ≠ some ' '

/-- The specification's re-splitting by "double-quoted-or-bare, space-separated"
rules, written from its words (the program has no such function).  A space
separates tokens and starts none.  A token that starts with a double quote is
the text up to the next double quote; any other token is the maximal run of
non-space characters.  `fuel` bounds the number of steps, one per token and one
per separating space. -/
def specResplit : Nat → List Char → List (List Char)
  | 0, _ => []
  | _ + 1, [] => []
  | fuel + 1, c :: cs =>
    if c = ' ' then
      specResplit fuel cs
    else if c = '"' then
      cs.takeWhile (fun x => decide (x ≠ '"')) ::
        specResplit fuel ((cs.dropWhile (fun x => decide (x ≠ '"'))).drop 1)
    else
      (c :: cs).takeWhile (fun x => decide (x ≠ ' ')) ::
        specResplit fuel ((c :: cs).dropWhile (fun x => decide (x ≠ ' ')))

/-- Re-splitting of a whole command line: no string needs more steps than it
has characters. -/
def specResplitCommandLine (s : CString) : List (List Char) :=
  specResplit s.length s

/-! ## Sample inputs -/

/-- A `PROCESS_INFORMATION` for the examples. -/
def samplePi : PROCESS_INFORMATION := ⟨100, 101, 7, 8⟩

/-- An operating system where `CreateProcess` succeeds, with given debug events
and child exit status. -/
def sampleWorld (events : List WaitOutcome) (status : Nat) : World :=
  ⟨fun _ => .ok samplePi, events, fun _ => status⟩

/-- An operating system where `CreateProcess` fails with error 2. -/
def noProcessWorld : World :=
  ⟨fun _ => .error 2, [], fun _ => 0⟩

/-- The argument vector of `nimp-run app`. -/
def sampleArgv : List CString := [['n', 'i', 'm', 'p'], ['a', 'p', 'p']]

/-- An `EXIT_PROCESS_DEBUG_EVENT` of the sample process. -/
def exitEvent : WaitOutcome := .event ⟨EXIT_PROCESS_DEBUG_EVENT, 7, 8, 0, 0⟩ (fun _ => none)

/-- A debug event of another kind (`LOAD_DLL_DEBUG_EVENT`, code 6). -/
def otherEvent : WaitOutcome := .event ⟨6, 7, 8, 0, 0⟩ (fun _ => none)

/-- An `OUTPUT_DEBUG_STRING_EVENT` of the sample process whose string `bytes`
lies at address 4096 of the debuggee. -/
def debugStringEvent (bytes : List Char) : WaitOutcome :=
  .event ⟨OUTPUT_DEBUG_STRING_EVENT, 7, 8, 4096, bytes.length⟩ (memoryAt 4096 bytes)

/-- An `OUTPUT_DEBUG_STRING_EVENT` announcing `n` bytes at an address that
cannot be read. -/
def unreadableStringEvent (n : Nat) : WaitOutcome :=
  .event ⟨OUTPUT_DEBUG_STRING_EVENT, 7, 8, 4096, n⟩ (fun _ => none)

/-! ## Lemmas on the loop -/

theorem signature_prefix_iff (data : List Char) :
    signature <+: data ↔ ∃ rest, data = 'c' :: 'Y' :: 'g' :: rest := by
  constructor
  · rintro ⟨t, rfl⟩
    exact ⟨t, rfl⟩
  · rintro ⟨t, rfl⟩
    exact ⟨t, rfl⟩

/-- The filter condition never reads outside the buffer, and holds exactly when
the counter is nonzero and the buffer begins with the signature. -/
theorem startupFilterCond_eq (k : Int) (data : List Char) :
    startupFilterCond k data = some (decide (k ≠ 0 ∧ signature <+: data)) := by
  unfold startupFilterCond
  by_cases hk : k = 0
  · simp [hk]
  · rcases data with _ | ⟨a, _ | ⟨b, _ | ⟨c, rest⟩⟩⟩
    · simp [hk, signature]
    · simp [hk, signature]
    · simp [hk, signature]
    · have ha' : ('c' = a) = (a = 'c') := propext eq_comm
      have hb' : ('Y' = b) = (b = 'Y') := propext eq_comm
      have hc' : ('g' = c) = (c = 'g') := propext eq_comm
      by_cases ha : a = 'c' <;> by_cases hb : b = 'Y' <;> by_cases hc : c = 'g' <;>
        simp [hk, signature, ha, hb, hc, ha', hb', hc', List.cons_prefix_cons]

theorem iteration_exit (pi : PROCESS_INFORMATION) (s : PumpState) (de : DEBUG_EVENT)
    (mem : Memory) (h : de.dwDebugEventCode = EXIT_PROCESS_DEBUG_EVENT) :
    iteration pi s (.event de mem) = ([.WaitForDebugEvent], .brk) := by
  simp [iteration, h]

theorem iteration_other (pi : PROCESS_INFORMATION) (s : PumpState) (de : DEBUG_EVENT)
    (mem : Memory) (h1 : de.dwDebugEventCode ≠ EXIT_PROCESS_DEBUG_EVENT)
    (h2 : de.dwDebugEventCode ≠ OUTPUT_DEBUG_STRING_EVENT) :
    iteration pi s (.event de mem) =
      ([.WaitForDebugEvent, .ContinueDebugEvent de.dwProcessId de.dwThreadId DBG_CONTINUE],
        .next s) := by
  simp [iteration, h1, h2]

theorem length_resize (data : List Char) (n : Nat) : (resize data n).length = n := by
  simp [resize]
  omega

theorem length_readBytes (mem : Memory) :
    ∀ (n base : Nat) (bytes : List Char), readBytes mem base n = some bytes → bytes.length = n
  | 0, _, bytes, h => by
    simp [readBytes] at h
    simp [← h]
  | n + 1, base, bytes, h => by
    unfold readBytes at h
    cases hm : mem base with
    | none => simp [hm] at h
    | some c =>
      cases hr : readBytes mem (base + 1) n with
      | none => simp [hm, hr] at h
      | some cs =>
        simp [hm, hr] at h
        simp [← h, length_readBytes mem n (base + 1) cs hr]

theorem length_ReadProcessMemory (mem : Memory) (base : Nat) (data : List Char) :
    (ReadProcessMemory mem base data).length = data.length := by
  unfold ReadProcessMemory
  cases h : readBytes mem base data.length with
  | none => rfl
  | some bytes => exact length_readBytes mem _ _ _ h

theorem length_relayBuffer (s : PumpState) (de : DEBUG_EVENT) (mem : Memory) :
    (relayBuffer s de mem).length = de.nDebugStringLength := by
  simp [relayBuffer, length_ReadProcessMemory, length_resize]

theorem iteration_debugString (pi : PROCESS_INFORMATION) (s : PumpState) (de : DEBUG_EVENT)
    (mem : Memory) (h : de.dwDebugEventCode = OUTPUT_DEBUG_STRING_EVENT) :
    iteration pi s (.event de mem) =
      if s.cygwin_startup_skip ≠ 0 ∧ signature <+: relayBuffer s de mem then
        ([.WaitForDebugEvent,
          .ReadProcessMemory pi.hProcess de.lpDebugStringData de.nDebugStringLength,
          .ContinueDebugEvent de.dwProcessId de.dwThreadId DBG_CONTINUE],
          .next ⟨relayBuffer s de mem, s.cygwin_startup_skip - 1⟩)
      else
        ([.WaitForDebugEvent,
          .ReadProcessMemory pi.hProcess de.lpDebugStringData de.nDebugStringLength,
          .fwrite (relayBuffer s de mem),
          .ContinueDebugEvent de.dwProcessId de.dwThreadId DBG_CONTINUE],
          .next ⟨relayBuffer s de mem, s.cygwin_startup_skip⟩) := by
  have hO : OUTPUT_DEBUG_STRING_EVENT ≠ EXIT_PROCESS_DEBUG_EVENT := by decide
  unfold iteration relayBuffer
  simp only [h, hO, if_false, if_true, startupFilterCond_eq, length_resize]
  by_cases hc : s.cygwin_startup_skip ≠ 0 ∧
      signature <+: ReadProcessMemory mem de.lpDebugStringData (resize s.data de.nDebugStringLength)
  · rw [if_pos hc, decide_eq_true hc]
  · rw [if_neg hc, decide_eq_false hc]

theorem iteration_serviced (pi : PROCESS_INFORMATION) (s : PumpState) (w : WaitOutcome)
    (h : isServiced w = true) :
    iteration pi s w = (stepTrace pi s w, .next (stepState pi s w)) := by
  cases w with
  | failed e => simp [isServiced] at h
  | event de mem =>
    have h1 : de.dwDebugEventCode ≠ EXIT_PROCESS_DEBUG_EVENT := by simpa [isServiced] using h
    by_cases h2 : de.dwDebugEventCode = OUTPUT_DEBUG_STRING_EVENT
    · unfold stepTrace stepState
      rw [iteration_debugString pi s de mem h2]
      split <;> rfl
    · unfold stepTrace stepState
      rw [iteration_other pi s de mem h1 h2]

theorem pump_cons_serviced (pi : PROCESS_INFORMATION) (s : PumpState) (w : WaitOutcome)
    (ws : List WaitOutcome) (h : isServiced w = true) :
    pump pi (w :: ws) s =
      ⟨stepTrace pi s w ++ (pump pi ws (stepState pi s w)).trace,
        (pump pi ws (stepState pi s w)).exit, (pump pi ws (stepState pi s w)).final⟩ := by
  simp [pump, iteration_serviced pi s w h]

theorem pump_cons_exit (pi : PROCESS_INFORMATION) (s : PumpState) (de : DEBUG_EVENT)
    (mem : Memory) (ws : List WaitOutcome)
    (h : de.dwDebugEventCode = EXIT_PROCESS_DEBUG_EVENT) :
    pump pi (.event de mem :: ws) s = ⟨[.WaitForDebugEvent], .brk, s⟩ := by
  simp [pump, iteration_exit pi s de mem h]

theorem pump_cons_failed (pi : PROCESS_INFORMATION) (s : PumpState) (e : Nat)
    (ws : List WaitOutcome) :
    pump pi (.failed e :: ws) s =
      ⟨[.WaitForDebugEvent, .GetLastError, .printf (.cannotWaitForDebugEvent e)],
        .ret EXIT_FAILURE, s⟩ := by
  simp [pump, iteration]

/-- Running the loop over answers that are all serviced leaves it blocked in the
next wait; with more answers after them the loop goes on from the state
reached. -/
theorem pump_append (pi : PROCESS_INFORMATION) :
    ∀ (pre : List WaitOutcome) (s : PumpState), (∀ x ∈ pre, isServiced x = true) →
      ∃ t, pump pi pre s = ⟨t ++ [.WaitForDebugEvent], .blocked, (pump pi pre s).final⟩ ∧
        ∀ rest, pump pi (pre ++ rest) s =
          ⟨t ++ (pump pi rest (pump pi pre s).final).trace,
            (pump pi rest (pump pi pre s).final).exit,
            (pump pi rest (pump pi pre s).final).final⟩
  | [], s, _ => ⟨[], by simp [pump], by intro rest; simp [pump]⟩
  | w :: ws, s, h => by
    have hw : isServiced w = true := h w (List.mem_cons_self _ _)
    have hws : ∀ x ∈ ws, isServiced x = true := fun x hx => h x (List.mem_cons_of_mem _ hx)
    obtain ⟨t, ht, hrest⟩ := pump_append pi ws (stepState pi s w) hws
    refine ⟨stepTrace pi s w ++ t, ?_, ?_⟩
    · rw [pump_cons_serviced pi s w ws hw]
      rw [ht]
      simp
    · intro rest
      rw [List.cons_append, pump_cons_serviced pi s w (ws ++ rest) hw, hrest rest]
      rw [pump_cons_serviced pi s w ws hw]
      simp

/-- Every call of the loop is one of the calls its body can make. -/
theorem pump_actions (pi : PROCESS_INFORMATION) :
    ∀ (evs : List WaitOutcome) (s : PumpState), ∀ a ∈ (pump pi evs s).trace, isPumpAction a = true
  | [], s => by simp [pump, isPumpAction]
  | .failed e :: ws, s => by
    rw [pump_cons_failed]
    simp [isPumpAction]
  | .event de mem :: ws, s => by
    by_cases h1 : de.dwDebugEventCode = EXIT_PROCESS_DEBUG_EVENT
    · rw [pump_cons_exit pi s de mem ws h1]
      simp [isPumpAction]
    · have hw : isServiced (.event de mem) = true := by simp [isServiced, h1]
      rw [pump_cons_serviced pi s _ ws hw]
      intro a ha
      simp only [List.mem_append] at ha
      rcases ha with ha | ha
      · unfold stepTrace at ha
        by_cases h2 : de.dwDebugEventCode = OUTPUT_DEBUG_STRING_EVENT
        · rw [iteration_debugString pi s de mem h2] at ha
          split at ha <;> simp at ha <;> rcases ha with rfl | rfl | rfl | rfl <;> rfl
        · rw [iteration_other pi s de mem h1 h2] at ha
          simp at ha
          rcases ha with rfl | rfl <;> rfl
      · exact pump_actions pi ws _ a ha

/-! ## The launcher's exit status -/

theorem main_created (w : World) (argv : List CString) (pi : PROCESS_INFORMATION)
    (h : 1 < argv.length) (hcreate : w.CreateProcess (buildArglist argv) = .ok pi) :
    main w argv =
      match (pump pi w.debugEvents initialPumpState).exit with
      | .ret status =>
        ⟨[.getcwd, .printf (.executing (argv.get ⟨1, h⟩) (buildArglist argv)),
            .CreateProcess (buildArglist argv) DEBUG_ONLY_THIS_PROCESS,
            .DebugActiveProcess pi.dwProcessId] ++
          (pump pi w.debugEvents initialPumpState).trace, .returned status⟩
      | .blocked =>
        ⟨[.getcwd, .printf (.executing (argv.get ⟨1, h⟩) (buildArglist argv)),
            .CreateProcess (buildArglist argv) DEBUG_ONLY_THIS_PROCESS,
            .DebugActiveProcess pi.dwProcessId] ++
          (pump pi w.debugEvents initialPumpState).trace, .blocked⟩
      | .undef =>
        ⟨[.getcwd, .printf (.executing (argv.get ⟨1, h⟩) (buildArglist argv)),
            .CreateProcess (buildArglist argv) DEBUG_ONLY_THIS_PROCESS,
            .DebugActiveProcess pi.dwProcessId] ++
          (pump pi w.debugEvents initialPumpState).trace, .undefined⟩
      | .brk =>
        ⟨[.getcwd, .printf (.executing (argv.get ⟨1, h⟩) (buildArglist argv)),
            .CreateProcess (buildArglist argv) DEBUG_ONLY_THIS_PROCESS,
            .DebugActiveProcess pi.dwProcessId] ++
          (pump pi w.debugEvents initialPumpState).trace ++
          [.GetExitCodeProcess pi.hProcess, .printf (.exited (w.GetExitCodeProcess pi.hProcess)),
            .CloseHandle pi.hProcess, .CloseHandle pi.hThread],
          .returned (if w.GetExitCodeProcess pi.hProcess ≠ 0 then EXIT_FAILURE
            else EXIT_SUCCESS)⟩ := by
  have h2 : ¬ argv.length < 2 := by omega
  unfold main
  simp only [h2, dite_false, hcreate]
  split <;> simp

/-- When the loop is left by `break`, `main` returns after the status query
and the two `CloseHandle` calls. -/
theorem main_of_exit_event (w : World) (argv : List CString) (pi : PROCESS_INFORMATION)
    (pre post : List WaitOutcome) (de : DEBUG_EVENT) (mem : Memory)
    (h : 1 < argv.length) (hcreate : w.CreateProcess (buildArglist argv) = .ok pi)
    (hevents : w.debugEvents = pre ++ .event de mem :: post)
    (hpre : ∀ x ∈ pre, isServiced x = true)
    (hexit : de.dwDebugEventCode = EXIT_PROCESS_DEBUG_EVENT) :
    ∃ t, (pump pi pre initialPumpState).trace = t ++ [.WaitForDebugEvent] ∧
      main w argv =
        ⟨[.getcwd, .printf (.executing (argv.get ⟨1, h⟩) (buildArglist argv)),
            .CreateProcess (buildArglist argv) DEBUG_ONLY_THIS_PROCESS,
            .DebugActiveProcess pi.dwProcessId] ++ (t ++ [.WaitForDebugEvent]) ++
          [.GetExitCodeProcess pi.hProcess, .printf (.exited (w.GetExitCodeProcess pi.hProcess)),
            .CloseHandle pi.hProcess, .CloseHandle pi.hThread],
          .returned (if w.GetExitCodeProcess pi.hProcess ≠ 0 then EXIT_FAILURE
            else EXIT_SUCCESS)⟩ := by
  obtain ⟨t, ht, hrest⟩ := pump_append pi pre initialPumpState hpre
  refine ⟨t, by rw [ht], ?_⟩
  rw [main_created w argv pi h hcreate, hevents, hrest, pump_cons_exit pi _ de mem post hexit]

/-- C1: when the event loop ends on an ExitProcess event and the status query
yields `s`, `main` returns `EXIT_SUCCESS` (0) if and only if `s = 0`, and for
every nonzero `s` it returns the one value `EXIT_FAILURE`. -/
theorem main_status_of_exit (w : World) (argv : List CString) (pi : PROCESS_INFORMATION)
    (pre post : List WaitOutcome) (de : DEBUG_EVENT) (mem : Memory) (s : Nat)
    (hargc : 2 ≤ argv.length)
    (hcreate : w.CreateProcess (buildArglist argv) = .ok pi)
    (hevents : w.debugEvents = pre ++ .event de mem :: post)
    (hpre : ∀ x ∈ pre, isServiced x = true)
    (hexit : de.dwDebugEventCode = EXIT_PROCESS_DEBUG_EVENT)
    (hs : w.GetExitCodeProcess pi.hProcess = s) :
    ((main w argv).outcome = .returned EXIT_SUCCESS ↔ s = 0) ∧
      (s ≠ 0 → (main w argv).outcome = .returned EXIT_FAILURE) ∧
      EXIT_SUCCESS = 0 ∧ EXIT_FAILURE ≠ EXIT_SUCCESS := by
  obtain ⟨t, -, hmain⟩ :=
    main_of_exit_event w argv pi pre post de mem (by omega) hcreate hevents hpre hexit
  rw [hmain, hs]
  by_cases h0 : s = 0
  · simp [h0, EXIT_SUCCESS, EXIT_FAILURE]
  · simp [h0, EXIT_SUCCESS, EXIT_FAILURE]

/-- A child that loads a DLL, prints a debug string and exits with status 42:
the launcher returns `EXIT_FAILURE`. -/
theorem main_status_of_exit_witness :
    ((main (sampleWorld [otherEvent, debugStringEvent ['h', 'i'], exitEvent] 42)
        sampleArgv).outcome = .returned EXIT_SUCCESS ↔ 42 = 0) ∧
      (42 ≠ 0 → (main (sampleWorld [otherEvent, debugStringEvent ['h', 'i'], exitEvent] 42)
        sampleArgv).outcome = .returned EXIT_FAILURE) ∧
      EXIT_SUCCESS = 0 ∧ EXIT_FAILURE ≠ EXIT_SUCCESS :=
  main_status_of_exit (sampleWorld [otherEvent, debugStringEvent ['h', 'i'], exitEvent] 42)
    sampleArgv samplePi [otherEvent, debugStringEvent ['h', 'i']] []
    ⟨EXIT_PROCESS_DEBUG_EVENT, 7, 8, 0, 0⟩ (fun _ => none) 42
    (by decide) rfl rfl (by decide) rfl rfl

/-! ## The argument-count check -/

/-- With two or more tokens the usage complaint is not printed and
`CreateProcess` is called with the built command line. -/
theorem main_calls_CreateProcess (w : World) (argv : List CString) (h : 1 < argv.length) :
    Action.printf .tooFewArguments ∉ (main w argv).trace ∧
      Action.CreateProcess (buildArglist argv) DEBUG_ONLY_THIS_PROCESS ∈ (main w argv).trace := by
  cases hc : w.CreateProcess (buildArglist argv) with
  | error e =>
    have h2 : ¬ argv.length < 2 := by omega
    simp [main, h2, hc]
  | ok pi =>
    have hp := pump_actions pi w.debugEvents initialPumpState
    have hno : Action.printf .tooFewArguments ∉
        (pump pi w.debugEvents initialPumpState).trace := by
      intro hmem
      have := hp _ hmem
      simp [isPumpAction] at this
    rw [main_created w argv pi h hc]
    split <;> simp [hno]


/-- C7: with fewer than 2 tokens `main` prints the usage complaint, returns the
failure status and makes no other call (no `CreateProcess`, `DebugActiveProcess`
or `WaitForDebugEvent`); with 2 or more tokens the usage complaint is not
printed and `CreateProcess` is called with the built command line. -/
theorem main_argument_count (w : World) (argv : List CString) :
    (argv.length < 2 →
      main w argv = ⟨[.printf .tooFewArguments], .returned EXIT_FAILURE⟩) ∧
    (2 ≤ argv.length →
      Action.printf .tooFewArguments ∉ (main w argv).trace ∧
      Action.CreateProcess (buildArglist argv) DEBUG_ONLY_THIS_PROCESS ∈ (main w argv).trace) := by
  constructor
  · intro h
    simp [main, h]
  · intro h
    exact main_calls_CreateProcess w argv (by omega)

/-- The invocation `nimp-run` without a target takes the usage path; `nimp-run app`
does not. -/
theorem main_argument_count_witness :
    main noProcessWorld [['n', 'i', 'm', 'p']] =
        ⟨[.printf .tooFewArguments], .returned EXIT_FAILURE⟩ ∧
      Action.printf .tooFewArguments ∉ (main noProcessWorld sampleArgv).trace ∧
      Action.CreateProcess (buildArglist sampleArgv) DEBUG_ONLY_THIS_PROCESS ∈
        (main noProcessWorld sampleArgv).trace :=
  ⟨(main_argument_count noProcessWorld [['n', 'i', 'm', 'p']]).1 (by decide),
    (main_argument_count noProcessWorld sampleArgv).2 (by decide)⟩

/-! ## Fatal paths -/

theorem forwarded_append (t u : List Action) :
    forwarded (t ++ u) = forwarded t ++ forwarded u := by
  simp [forwarded, List.filterMap_append]

theorem closedHandles_append (t u : List Action) :
    closedHandles (t ++ u) = closedHandles t ++ closedHandles u := by
  simp [closedHandles, List.filterMap_append]

theorem closedHandles_pump (pi : PROCESS_INFORMATION) (evs : List WaitOutcome) (s : PumpState) :
    closedHandles (pump pi evs s).trace = [] := by
  unfold closedHandles
  rw [List.filterMap_eq_nil_iff]
  intro a ha
  have := pump_actions pi evs s a ha
  cases a <;> simp_all [isPumpAction]

/-- When a wait fails, `main` returns right after the diagnostic. -/
theorem main_of_wait_failure (w : World) (argv : List CString) (pi : PROCESS_INFORMATION)
    (pre post : List WaitOutcome) (err : Nat)
    (h : 1 < argv.length) (hcreate : w.CreateProcess (buildArglist argv) = .ok pi)
    (hevents : w.debugEvents = pre ++ .failed err :: post)
    (hpre : ∀ x ∈ pre, isServiced x = true) :
    ∃ before, (pump pi pre initialPumpState).trace = before ++ [.WaitForDebugEvent] ∧
      main w argv =
        ⟨[.getcwd, .printf (.executing (argv.get ⟨1, h⟩) (buildArglist argv)),
            .CreateProcess (buildArglist argv) DEBUG_ONLY_THIS_PROCESS,
            .DebugActiveProcess pi.dwProcessId] ++ before ++
          [.WaitForDebugEvent, .GetLastError, .printf (.cannotWaitForDebugEvent err)],
          .returned EXIT_FAILURE⟩ := by
  obtain ⟨t, ht, hrest⟩ := pump_append pi pre initialPumpState hpre
  refine ⟨t, by rw [ht], ?_⟩
  rw [main_created w argv pi h hcreate, hevents, hrest, pump_cons_failed]
  simp

/-- C9: if process creation fails, `main` returns the failure status right after
reporting the error, without `DebugActiveProcess` and without any wait,
forwarding or acknowledgment; if a wait fails, `main` returns the failure status
right after reporting the error: after the failed wait there is no further
wait, no `fwrite` and no `ContinueDebugEvent`, whatever answers would have
followed, and the bytes forwarded are those forwarded before the failed wait. -/
theorem main_fatal_paths (w : World) (argv : List CString) (h : 1 < argv.length) :
    (∀ err, w.CreateProcess (buildArglist argv) = .error err →
      main w argv =
        ⟨[.getcwd, .printf (.executing (argv.get ⟨1, h⟩) (buildArglist argv)),
            .CreateProcess (buildArglist argv) DEBUG_ONLY_THIS_PROCESS,
            .GetLastError, .printf (.cannotCreateProcess (argv.get ⟨1, h⟩) err)],
          .returned EXIT_FAILURE⟩) ∧
    (∀ pi pre err post, w.CreateProcess (buildArglist argv) = .ok pi →
      w.debugEvents = pre ++ .failed err :: post →
      (∀ x ∈ pre, isServiced x = true) →
      ∃ before, (pump pi pre initialPumpState).trace = before ++ [.WaitForDebugEvent] ∧
        main w argv =
          ⟨[.getcwd, .printf (.executing (argv.get ⟨1, h⟩) (buildArglist argv)),
              .CreateProcess (buildArglist argv) DEBUG_ONLY_THIS_PROCESS,
              .DebugActiveProcess pi.dwProcessId] ++ before ++
            [.WaitForDebugEvent, .GetLastError, .printf (.cannotWaitForDebugEvent err)],
            .returned EXIT_FAILURE⟩ ∧
        forwarded (main w argv).trace = forwarded (pump pi pre initialPumpState).trace) := by
  constructor
  · intro err hc
    have h2 : ¬ argv.length < 2 := by omega
    simp [main, h2, hc]
  · intro pi pre err post hc hev hpre
    obtain ⟨before, hb, hmain⟩ := main_of_wait_failure w argv pi pre post err h hc hev hpre
    refine ⟨before, hb, hmain, ?_⟩
    rw [hmain, hb]
    simp [forwarded_append, forwarded]

/-- Process creation failing for `nimp-run app`; and a wait failing with error 6
after one forwarded debug string, with an exit event that is never reached. -/
theorem main_fatal_paths_witness :
    main noProcessWorld sampleArgv =
        ⟨[.getcwd, .printf (.executing ['a', 'p', 'p'] (buildArglist sampleArgv)),
            .CreateProcess (buildArglist sampleArgv) DEBUG_ONLY_THIS_PROCESS,
            .GetLastError, .printf (.cannotCreateProcess ['a', 'p', 'p'] 2)],
          .returned EXIT_FAILURE⟩ ∧
      ∃ before,
        (pump samplePi [debugStringEvent ['h', 'i']] initialPumpState).trace =
          before ++ [.WaitForDebugEvent] ∧
        main (sampleWorld [debugStringEvent ['h', 'i'], .failed 6, exitEvent] 0) sampleArgv =
          ⟨[.getcwd, .printf (.executing ['a', 'p', 'p'] (buildArglist sampleArgv)),
              .CreateProcess (buildArglist sampleArgv) DEBUG_ONLY_THIS_PROCESS,
              .DebugActiveProcess samplePi.dwProcessId] ++ before ++
            [.WaitForDebugEvent, .GetLastError, .printf (.cannotWaitForDebugEvent 6)],
            .returned EXIT_FAILURE⟩ ∧
        forwarded
            (main (sampleWorld [debugStringEvent ['h', 'i'], .failed 6, exitEvent] 0)
              sampleArgv).trace =
          forwarded (pump samplePi [debugStringEvent ['h', 'i']] initialPumpState).trace :=
  ⟨(main_fatal_paths noProcessWorld sampleArgv (by decide)).1 2 rfl,
    (main_fatal_paths (sampleWorld [debugStringEvent ['h', 'i'], .failed 6, exitEvent] 0)
      sampleArgv (by decide)).2 samplePi [debugStringEvent ['h', 'i']] 6 [exitEvent]
      rfl rfl (by decide)⟩

/-! ## Handle cleanup -/

/-- On the path through an ExitProcess event both handles are closed, once
each, the process handle first. -/
theorem closedHandles_of_exit_event (w : World) (argv : List CString)
    (pi : PROCESS_INFORMATION) (pre post : List WaitOutcome) (de : DEBUG_EVENT) (mem : Memory)
    (h : 1 < argv.length) (hcreate : w.CreateProcess (buildArglist argv) = .ok pi)
    (hevents : w.debugEvents = pre ++ .event de mem :: post)
    (hpre : ∀ x ∈ pre, isServiced x = true)
    (hexit : de.dwDebugEventCode = EXIT_PROCESS_DEBUG_EVENT) :
    closedHandles (main w argv).trace = [pi.hProcess, pi.hThread] := by
  obtain ⟨t, ht, hmain⟩ :=
    main_of_exit_event w argv pi pre post de mem h hcreate hevents hpre hexit
  have hp := closedHandles_pump pi pre initialPumpState
  rw [ht] at hp
  rw [hmain]
  simp only [closedHandles_append, hp]
  simp [closedHandles]

/-- On the path where a wait fails no handle is closed. -/
theorem closedHandles_of_wait_failure (w : World) (argv : List CString)
    (pi : PROCESS_INFORMATION) (pre post : List WaitOutcome) (err : Nat)
    (h : 1 < argv.length) (hcreate : w.CreateProcess (buildArglist argv) = .ok pi)
    (hevents : w.debugEvents = pre ++ .failed err :: post)
    (hpre : ∀ x ∈ pre, isServiced x = true) :
    (main w argv).outcome = .returned EXIT_FAILURE ∧ closedHandles (main w argv).trace = [] := by
  obtain ⟨t, ht, hmain⟩ := main_of_wait_failure w argv pi pre post err h hcreate hevents hpre
  have hp := closedHandles_pump pi pre initialPumpState
  rw [ht, closedHandles_append] at hp
  have hp1 : closedHandles t = [] := (List.append_eq_nil.mp hp).1
  rw [hmain]
  simp only [closedHandles_append, hp1]
  simp [closedHandles]

/-- C8, at the failing input: for `nimp-run app` where the process is created
(handles 100 and 101) and the first `WaitForDebugEvent` fails, `main` returns
`EXIT_FAILURE` and has called `CloseHandle` on neither handle; on the run where
the first event is the ExitProcess event both handles are closed. -/
theorem main_wait_failure_closes_no_handle :
    main (sampleWorld [.failed 6] 0) sampleArgv =
        ⟨[.getcwd, .printf (.executing ['a', 'p', 'p'] ['a', 'p', 'p', ' ']),
            .CreateProcess ['a', 'p', 'p', ' '] DEBUG_ONLY_THIS_PROCESS,
            .DebugActiveProcess 7,
            .WaitForDebugEvent, .GetLastError, .printf (.cannotWaitForDebugEvent 6)],
          .returned EXIT_FAILURE⟩ ∧
      closedHandles (main (sampleWorld [.failed 6] 0) sampleArgv).trace = [] ∧
      closedHandles (main (sampleWorld [exitEvent] 0) sampleArgv).trace = [100, 101] := by
  decide

/-! ## Short debug strings -/

/-- C10: at a debug-string event whose declared length is below 3, whatever the
counter and whatever the buffer held before: the relay buffer has the declared
length (it is empty for length 0), the filter condition is evaluated without a
read outside the buffer and is false, the counter and nothing else changes, and
the one `fwrite` of the pass sends exactly the buffer. -/
theorem iteration_short_debugString (pi : PROCESS_INFORMATION) (s : PumpState)
    (de : DEBUG_EVENT) (mem : Memory)
    (hcode : de.dwDebugEventCode = OUTPUT_DEBUG_STRING_EVENT)
    (hlen : de.nDebugStringLength < 3) :
    (relayBuffer s de mem).length = de.nDebugStringLength ∧
      (de.nDebugStringLength = 0 → relayBuffer s de mem = []) ∧
      startupFilterCond s.cygwin_startup_skip (relayBuffer s de mem) = some false ∧
      iteration pi s (.event de mem) =
        ([.WaitForDebugEvent,
          .ReadProcessMemory pi.hProcess de.lpDebugStringData de.nDebugStringLength,
          .fwrite (relayBuffer s de mem),
          .ContinueDebugEvent de.dwProcessId de.dwThreadId DBG_CONTINUE],
          .next ⟨relayBuffer s de mem, s.cygwin_startup_skip⟩) ∧
      forwarded (iteration pi s (.event de mem)).1 = relayBuffer s de mem := by
  have hl := length_relayBuffer s de mem
  have hns : ¬ (s.cygwin_startup_skip ≠ 0 ∧ signature <+: relayBuffer s de mem) := by
    rintro ⟨-, hp⟩
    have := hp.length_le
    simp [signature] at this
    omega
  have hit := iteration_debugString pi s de mem hcode
  rw [if_neg hns] at hit
  refine ⟨hl, ?_, ?_, hit, ?_⟩
  · intro h0
    exact List.eq_nil_of_length_eq_zero (by omega)
  · rw [startupFilterCond_eq, decide_eq_false hns]
  · rw [hit]
    simp [forwarded]

/-- A two-byte string that cannot be read, arriving while the buffer still holds
a banner and the counter is 2: the two stale bytes are forwarded, the counter
stays 2. -/
theorem iteration_short_debugString_witness :
    (relayBuffer ⟨['c', 'Y', 'g', '1'], 2⟩ ⟨OUTPUT_DEBUG_STRING_EVENT, 7, 8, 4096, 2⟩
        (fun _ => none)).length = 2 ∧
      ((2 : Nat) = 0 → relayBuffer ⟨['c', 'Y', 'g', '1'], 2⟩
        ⟨OUTPUT_DEBUG_STRING_EVENT, 7, 8, 4096, 2⟩ (fun _ => none) = []) ∧
      startupFilterCond 2 (relayBuffer ⟨['c', 'Y', 'g', '1'], 2⟩
        ⟨OUTPUT_DEBUG_STRING_EVENT, 7, 8, 4096, 2⟩ (fun _ => none)) = some false ∧
      iteration samplePi ⟨['c', 'Y', 'g', '1'], 2⟩
          (.event ⟨OUTPUT_DEBUG_STRING_EVENT, 7, 8, 4096, 2⟩ (fun _ => none)) =
        ([.WaitForDebugEvent, .ReadProcessMemory samplePi.hProcess 4096 2,
          .fwrite (relayBuffer ⟨['c', 'Y', 'g', '1'], 2⟩
            ⟨OUTPUT_DEBUG_STRING_EVENT, 7, 8, 4096, 2⟩ (fun _ => none)),
          .ContinueDebugEvent 7 8 DBG_CONTINUE],
          .next ⟨relayBuffer ⟨['c', 'Y', 'g', '1'], 2⟩
            ⟨OUTPUT_DEBUG_STRING_EVENT, 7, 8, 4096, 2⟩ (fun _ => none), 2⟩) ∧
      forwarded (iteration samplePi ⟨['c', 'Y', 'g', '1'], 2⟩
          (.event ⟨OUTPUT_DEBUG_STRING_EVENT, 7, 8, 4096, 2⟩ (fun _ => none))).1 =
        relayBuffer ⟨['c', 'Y', 'g', '1'], 2⟩
          ⟨OUTPUT_DEBUG_STRING_EVENT, 7, 8, 4096, 2⟩ (fun _ => none) :=
  iteration_short_debugString samplePi ⟨['c', 'Y', 'g', '1'], 2⟩
    ⟨OUTPUT_DEBUG_STRING_EVENT, 7, 8, 4096, 2⟩ (fun _ => none) rfl (by decide)

/-! ## The startup filter -/

theorem relayBuffer_of_readable (s : PumpState) (de : DEBUG_EVENT) (mem : Memory)
    (bytes : List Char)
    (h : readBytes mem de.lpDebugStringData de.nDebugStringLength = some bytes) :
    relayBuffer s de mem = bytes := by
  simp [relayBuffer, ReadProcessMemory, length_resize, h]

theorem step_other (pi : PROCESS_INFORMATION) (s : PumpState) (w : WaitOutcome)
    (h1 : isServiced w = true) (h2 : isDebugString w = false) :
    stepState pi s w = s ∧ forwarded (stepTrace pi s w) = [] := by
  cases w with
  | failed e => simp [isServiced] at h1
  | event de mem =>
    have h1' : de.dwDebugEventCode ≠ EXIT_PROCESS_DEBUG_EVENT := by simpa [isServiced] using h1
    have h2' : de.dwDebugEventCode ≠ OUTPUT_DEBUG_STRING_EVENT := by
      simpa [isDebugString] using h2
    simp [stepState, stepTrace, iteration_other pi s de mem h1' h2', forwarded]

/-- Events of other kinds leave the loop variables alone and forward nothing. -/
theorem pump_others (pi : PROCESS_INFORMATION) :
    ∀ (o : List WaitOutcome) (s : PumpState),
      (∀ x ∈ o, isServiced x = true ∧ isDebugString x = false) →
      ∃ t, forwarded t = [] ∧ ∀ rest, pump pi (o ++ rest) s =
        ⟨t ++ (pump pi rest s).trace, (pump pi rest s).exit, (pump pi rest s).final⟩
  | [], s, _ => ⟨[], by simp [forwarded], by intro rest; simp⟩
  | w :: ws, s, h => by
    have hw := h w (List.mem_cons_self _ _)
    have hws : ∀ x ∈ ws, isServiced x = true ∧ isDebugString x = false :=
      fun x hx => h x (List.mem_cons_of_mem _ hx)
    obtain ⟨t, ht, hrest⟩ := pump_others pi ws s hws
    obtain ⟨hs, hf⟩ := step_other pi s w hw.1 hw.2
    refine ⟨stepTrace pi s w ++ t, by rw [forwarded_append, hf, ht]; rfl, ?_⟩
    intro rest
    rw [List.cons_append, pump_cons_serviced pi s w (ws ++ rest) hw.1, hs, hrest rest]
    simp

/-- A readable debug string that begins with the signature, met while the
counter is nonzero: nothing is forwarded and the counter goes down by one. -/
theorem pump_cons_banner (pi : PROCESS_INFORMATION) (s : PumpState) (de : DEBUG_EVENT)
    (mem : Memory) (tail : List Char) (ws : List WaitOutcome)
    (hcode : de.dwDebugEventCode = OUTPUT_DEBUG_STRING_EVENT)
    (hread : readBytes mem de.lpDebugStringData de.nDebugStringLength = some (signature ++ tail))
    (hk : s.cygwin_startup_skip ≠ 0) :
    pump pi (.event de mem :: ws) s =
      ⟨[.WaitForDebugEvent,
          .ReadProcessMemory pi.hProcess de.lpDebugStringData de.nDebugStringLength,
          .ContinueDebugEvent de.dwProcessId de.dwThreadId DBG_CONTINUE] ++
          (pump pi ws ⟨signature ++ tail, s.cygwin_startup_skip - 1⟩).trace,
        (pump pi ws ⟨signature ++ tail, s.cygwin_startup_skip - 1⟩).exit,
        (pump pi ws ⟨signature ++ tail, s.cygwin_startup_skip - 1⟩).final⟩ := by
  have hb := relayBuffer_of_readable s de mem _ hread
  have hit := iteration_debugString pi s de mem hcode
  rw [hb, if_pos ⟨hk, List.prefix_append _ _⟩] at hit
  simp [pump, hit]

/-- Once the counter is 0 it stays 0. -/
theorem pump_skip_zero (pi : PROCESS_INFORMATION) :
    ∀ (evs : List WaitOutcome) (s : PumpState), s.cygwin_startup_skip = 0 →
      (pump pi evs s).final.cygwin_startup_skip = 0
  | [], s, h => by simpa [pump] using h
  | .failed e :: ws, s, h => by
    rw [pump_cons_failed]
    exact h
  | .event de mem :: ws, s, h => by
    by_cases h1 : de.dwDebugEventCode = EXIT_PROCESS_DEBUG_EVENT
    · rw [pump_cons_exit pi s de mem ws h1]
      exact h
    · have hw : isServiced (.event de mem) = true := by simp [isServiced, h1]
      rw [pump_cons_serviced pi s _ ws hw]
      apply pump_skip_zero pi ws
      unfold stepState
      by_cases h2 : de.dwDebugEventCode = OUTPUT_DEBUG_STRING_EVENT
      · rw [iteration_debugString pi s de mem h2, if_neg (by simp [h])]
        exact h
      · rw [iteration_other pi s de mem h1 h2]
        exact h

/-- C5: a child whose first two debug-string events carry a payload beginning
with `c`,`Y`,`g` (any bytes after it), events of other kinds in between, and no
other debug string before it exits: the counter is 2 until the first of them, 1
after it, 0 after the second (one decrement per suppressed event), it is 0 and
so never negative after any further answers whatever, and when the ExitProcess
event ends the loop no byte has been forwarded. -/
theorem startup_filter_two_banners (pi : PROCESS_INFORMATION)
    (o1 o2 o3 post : List WaitOutcome) (de1 de2 deX : DEBUG_EVENT) (mem1 mem2 memX : Memory)
    (tail1 tail2 : List Char)
    (ho1 : ∀ x ∈ o1, isServiced x = true ∧ isDebugString x = false)
    (ho2 : ∀ x ∈ o2, isServiced x = true ∧ isDebugString x = false)
    (ho3 : ∀ x ∈ o3, isServiced x = true ∧ isDebugString x = false)
    (hc1 : de1.dwDebugEventCode = OUTPUT_DEBUG_STRING_EVENT)
    (hr1 : readBytes mem1 de1.lpDebugStringData de1.nDebugStringLength =
      some (signature ++ tail1))
    (hc2 : de2.dwDebugEventCode = OUTPUT_DEBUG_STRING_EVENT)
    (hr2 : readBytes mem2 de2.lpDebugStringData de2.nDebugStringLength =
      some (signature ++ tail2))
    (hX : deX.dwDebugEventCode = EXIT_PROCESS_DEBUG_EVENT) :
    (pump pi o1 initialPumpState).final.cygwin_startup_skip = 2 ∧
      (pump pi (o1 ++ [.event de1 mem1]) initialPumpState).final.cygwin_startup_skip = 1 ∧
      (pump pi (o1 ++ .event de1 mem1 :: o2) initialPumpState).final.cygwin_startup_skip = 1 ∧
      (pump pi (o1 ++ .event de1 mem1 :: (o2 ++ [.event de2 mem2]))
        initialPumpState).final.cygwin_startup_skip = 0 ∧
      (∀ more, (pump pi (o1 ++ .event de1 mem1 :: (o2 ++ .event de2 mem2 :: more))
        initialPumpState).final.cygwin_startup_skip = 0) ∧
      (pump pi (o1 ++ .event de1 mem1 :: (o2 ++ .event de2 mem2 ::
        (o3 ++ .event deX memX :: post))) initialPumpState).exit = .brk ∧
      forwarded (pump pi (o1 ++ .event de1 mem1 :: (o2 ++ .event de2 mem2 ::
        (o3 ++ .event deX memX :: post))) initialPumpState).trace = [] := by
  obtain ⟨t1, hf1, hp1⟩ := pump_others pi o1 initialPumpState ho1
  obtain ⟨t2, hf2, hp2⟩ := pump_others pi o2 ⟨signature ++ tail1, 1⟩ ho2
  obtain ⟨t3, hf3, hp3⟩ := pump_others pi o3 ⟨signature ++ tail2, 0⟩ ho3
  have hb1 : ∀ ws, pump pi (.event de1 mem1 :: ws) initialPumpState = _ :=
    fun ws => pump_cons_banner pi initialPumpState de1 mem1 tail1 ws hc1 hr1 (by decide)
  have hb2 : ∀ ws, pump pi (.event de2 mem2 :: ws) ⟨signature ++ tail1, 1⟩ = _ :=
    fun ws => pump_cons_banner pi ⟨signature ++ tail1, 1⟩ de2 mem2 tail2 ws hc2 hr2
      (by simp)
  have e1 : initialPumpState.cygwin_startup_skip - 1 = 1 := by decide
  have e2 : (1 : Int) - 1 = 0 := by decide
  simp only [e1] at hb1
  simp only [e2] at hb2
  have hall : ∀ more, (pump pi (o1 ++ .event de1 mem1 :: (o2 ++ .event de2 mem2 :: more))
      initialPumpState).final.cygwin_startup_skip = 0 := by
    intro more
    rw [hp1, hb1, hp2, hb2]
    exact pump_skip_zero pi more _ rfl
  refine ⟨?_, ?_, ?_, ?_, hall, ?_, ?_⟩
  · have := hp1 []
    rw [List.append_nil] at this
    rw [this]
    rfl
  · rw [hp1, hb1]
    rfl
  · have := hp2 []
    rw [List.append_nil] at this
    rw [hp1, hb1, this]
    rfl
  · exact hall []
  · rw [hp1, hb1, hp2, hb2, hp3, pump_cons_exit pi _ deX memX post hX]
  · rw [hp1, hb1, hp2, hb2, hp3, pump_cons_exit pi _ deX memX post hX]
    simp only [forwarded_append, hf1, hf2, hf3]
    simp [forwarded]

/-- The events of C5 with one event of another kind before the first banner and
one before the exit event. -/
theorem startup_filter_two_banners_witness :
    (pump samplePi [otherEvent] initialPumpState).final.cygwin_startup_skip = 2 ∧
      (pump samplePi ([otherEvent] ++ [debugStringEvent ['c', 'Y', 'g', '1']])
        initialPumpState).final.cygwin_startup_skip = 1 ∧
      (pump samplePi ([otherEvent] ++ debugStringEvent ['c', 'Y', 'g', '1'] :: [])
        initialPumpState).final.cygwin_startup_skip = 1 ∧
      (pump samplePi ([otherEvent] ++ debugStringEvent ['c', 'Y', 'g', '1'] ::
        ([] ++ [debugStringEvent ['c', 'Y', 'g']])) initialPumpState).final.cygwin_startup_skip
        = 0 ∧
      (∀ more, (pump samplePi ([otherEvent] ++ debugStringEvent ['c', 'Y', 'g', '1'] ::
        ([] ++ debugStringEvent ['c', 'Y', 'g'] :: more))
        initialPumpState).final.cygwin_startup_skip = 0) ∧
      (pump samplePi ([otherEvent] ++ debugStringEvent ['c', 'Y', 'g', '1'] ::
        ([] ++ debugStringEvent ['c', 'Y', 'g'] :: ([otherEvent] ++ exitEvent :: [])))
        initialPumpState).exit = .brk ∧
      forwarded (pump samplePi ([otherEvent] ++ debugStringEvent ['c', 'Y', 'g', '1'] ::
        ([] ++ debugStringEvent ['c', 'Y', 'g'] :: ([otherEvent] ++ exitEvent :: [])))
        initialPumpState).trace = [] :=
  startup_filter_two_banners samplePi [otherEvent] [] [otherEvent] []
    ⟨OUTPUT_DEBUG_STRING_EVENT, 7, 8, 4096, 4⟩ ⟨OUTPUT_DEBUG_STRING_EVENT, 7, 8, 4096, 3⟩
    ⟨EXIT_PROCESS_DEBUG_EVENT, 7, 8, 0, 0⟩
    (memoryAt 4096 ['c', 'Y', 'g', '1']) (memoryAt 4096 ['c', 'Y', 'g']) (fun _ => none)
    ['1'] [] (by decide) (by simp) (by decide) rfl rfl rfl rfl rfl

/-! ## What is forwarded -/

theorem exceptFirst_nil (k : Nat) : exceptFirst k [] = [] := by
  cases k <;> rfl

theorem exceptFirst_zero (ps : List (List Char)) : exceptFirst 0 ps = ps := by
  cases ps <;> simp [exceptFirst]

theorem exceptFirst_cons_of_not (k : Nat) (p : List Char) (ps : List (List Char))
    (h : beginsWithSignature p = false) :
    exceptFirst k (p :: ps) = p :: exceptFirst k ps := by
  cases k with
  | zero => simp [exceptFirst_zero]
  | succ k => simp [exceptFirst, h]

/-- Leaving out the first `k + 1` is leaving out the first one, then the first
`k` of what remains. -/
theorem exceptFirst_succ (k : Nat) :
    ∀ ps : List (List Char), exceptFirst (k + 1) ps = exceptFirst k (ps.eraseP beginsWithSignature)
  | [] => by simp [exceptFirst, exceptFirst_nil]
  | p :: ps => by
    by_cases h : beginsWithSignature p = true
    · simp [exceptFirst, h, List.eraseP_cons]
    · have h' : beginsWithSignature p = false := by simpa using h
      rw [List.eraseP_cons, exceptFirst_cons_of_not _ _ _ h']
      simp only [h', cond_false, Bool.false_eq_true, if_false]
      rw [exceptFirst_cons_of_not _ _ _ h', exceptFirst_succ k ps]

theorem exceptFirst_two (ps : List (List Char)) :
    exceptFirst 2 ps = (ps.eraseP beginsWithSignature).eraseP beginsWithSignature := by
  rw [exceptFirst_succ, exceptFirst_succ, exceptFirst_zero]

theorem payloads_of_not_serviced (w : WaitOutcome) (ws : List WaitOutcome)
    (h : isServiced w = false) : payloads (w :: ws) = [] := by
  simp [payloads, serviced, List.takeWhile_cons, h]

theorem payloads_cons (w : WaitOutcome) (ws : List WaitOutcome) (h : isServiced w = true) :
    payloads (w :: ws) =
      match payload? w with
      | some bytes => bytes :: payloads ws
      | none => payloads ws := by
  simp only [payloads, serviced, List.takeWhile_cons, h, if_true, List.filterMap_cons]
  cases payload? w <;> rfl

theorem AllReadable_tail (w : WaitOutcome) (ws : List WaitOutcome) (h : isServiced w = true)
    (hall : AllReadable (w :: ws)) : AllReadable ws := by
  intro x hx hd
  apply hall x _ hd
  simp only [serviced, List.takeWhile_cons, h, if_true]
  exact List.mem_cons_of_mem _ hx

/-- The bytes forwarded and the counter, from any state of the loop, when every
debug string received can be read. -/
theorem pump_forwarded (pi : PROCESS_INFORMATION) :
    ∀ (evs : List WaitOutcome) (s : PumpState) (k : Nat), s.cygwin_startup_skip = (k : Int) →
      AllReadable evs →
      forwarded (pump pi evs s).trace = (exceptFirst k (payloads evs)).flatten ∧
      (pump pi evs s).final.cygwin_startup_skip + ((payloads evs).length : Int) =
        (k : Int) + ((exceptFirst k (payloads evs)).length : Int)
  | [], s, k, hk, _ => by
    simp [pump, payloads, serviced, exceptFirst_nil, forwarded, hk]
  | .failed e :: ws, s, k, hk, _ => by
    rw [pump_cons_failed, payloads_of_not_serviced (.failed e) ws rfl]
    simp [exceptFirst_nil, forwarded, hk]
  | .event de mem :: ws, s, k, hk, hall => by
    by_cases h1 : de.dwDebugEventCode = EXIT_PROCESS_DEBUG_EVENT
    · rw [pump_cons_exit pi s de mem ws h1,
        payloads_of_not_serviced _ _ (by simp [isServiced, h1])]
      simp [exceptFirst_nil, forwarded, hk]
    · have hw : isServiced (.event de mem) = true := by simp [isServiced, h1]
      have htail := AllReadable_tail _ ws hw hall
      rw [pump_cons_serviced pi s _ ws hw, payloads_cons _ ws hw]
      by_cases h2 : de.dwDebugEventCode = OUTPUT_DEBUG_STRING_EVENT
      · have hsome := hall (.event de mem)
          (by simp [serviced, List.takeWhile_cons, hw]) (by simp [isDebugString, h2])
        obtain ⟨bytes, hbytes⟩ := Option.isSome_iff_exists.mp hsome
        have hread : readBytes mem de.lpDebugStringData de.nDebugStringLength = some bytes := by
          simpa [payload?, h2] using hbytes
        have hb := relayBuffer_of_readable s de mem bytes hread
        have hit := iteration_debugString pi s de mem h2
        rw [hb] at hit
        simp only [hbytes]
        by_cases hc : s.cygwin_startup_skip ≠ 0 ∧ signature <+: bytes
        · rw [if_pos hc] at hit
          obtain ⟨k', rfl⟩ : ∃ k', k = k' + 1 := by
            refine ⟨k - 1, ?_⟩
            have : (k : Int) ≠ 0 := hk ▸ hc.1
            omega
          have hsig : beginsWithSignature bytes = true := by simp [beginsWithSignature, hc.2]
          have ih := pump_forwarded pi ws ⟨bytes, s.cygwin_startup_skip - 1⟩ k'
            (by simp [hk]) htail
          simp only [stepTrace, stepState, hit, forwarded_append, exceptFirst, hsig, if_true]
          constructor
          · rw [ih.1]
            simp [forwarded]
          · have := ih.2
            simp only [List.length_cons]
            push_cast
            omega
        · rw [if_neg hc] at hit
          have hsig : k = 0 ∨ beginsWithSignature bytes = false := by
            by_cases hk0 : k = 0
            · exact Or.inl hk0
            · right
              have : s.cygwin_startup_skip ≠ 0 := by
                rw [hk]
                exact_mod_cast hk0
              simpa [beginsWithSignature] using fun hp => hc ⟨this, hp⟩
          have hex : exceptFirst k (bytes :: payloads ws) = bytes :: exceptFirst k (payloads ws) := by
            rcases hsig with rfl | hsig
            · simp [exceptFirst_zero]
            · exact exceptFirst_cons_of_not _ _ _ hsig
          have ih := pump_forwarded pi ws ⟨bytes, s.cygwin_startup_skip⟩ k hk htail
          simp only [stepTrace, stepState, hit, forwarded_append, hex]
          constructor
          · rw [ih.1]
            simp [forwarded]
          · have := ih.2
            simp only [List.length_cons]
            push_cast
            omega
      · have hnone : payload? (.event de mem) = none := by simp [payload?, h2]
        obtain ⟨hs, hf⟩ := step_other pi s (.event de mem) hw (by simp [isDebugString, h2])
        have ih := pump_forwarded pi ws s k hk htail
        simp only [hnone, hs, forwarded_append, hf, List.nil_append]
        exact ih

/-- C4 as stated fails: a first debug string `abc` is forwarded, then a second
event announces 2 bytes at an address that cannot be read; the program ignores
the result of `ReadProcessMemory` and forwards the two bytes `ab` left in the
buffer, which are the payload of no second event. -/
theorem stale_bytes_forwarded :
    forwarded (pump samplePi [debugStringEvent ['a', 'b', 'c'], unreadableStringEvent 2]
        initialPumpState).trace = ['a', 'b', 'c', 'a', 'b'] ∧
      (((payloads [debugStringEvent ['a', 'b', 'c'], unreadableStringEvent 2]).eraseP
        beginsWithSignature).eraseP beginsWithSignature).flatten = ['a', 'b', 'c'] ∧
      forwarded (pump samplePi [debugStringEvent ['a', 'b', 'c'], unreadableStringEvent 2]
        initialPumpState).trace ≠
      (((payloads [debugStringEvent ['a', 'b', 'c'], unreadableStringEvent 2]).eraseP
        beginsWithSignature).eraseP beginsWithSignature).flatten := by
  decide

/-- C4, amended: for every event stream in which each debug string received can
be read from the debuggee, the bytes the loop sends to standard output with
`fwrite` are exactly the concatenation, in order, of the payloads of the
debug-string events received, the first two that begin with `c`,`Y`,`g` left
out; the counter has gone down by the number of payloads left out; and from any
state of the loop a readable debug string is forwarded verbatim, the counter
unchanged, when the counter is 0 or the payload does not begin with the
signature. -/
theorem pump_forwards_all_but_two_banners (pi : PROCESS_INFORMATION)
    (evs : List WaitOutcome) (hread : AllReadable evs) :
    forwarded (pump pi evs initialPumpState).trace =
        (((payloads evs).eraseP beginsWithSignature).eraseP beginsWithSignature).flatten ∧
      (pump pi evs initialPumpState).final.cygwin_startup_skip + ((payloads evs).length : Int) =
        2 + ((((payloads evs).eraseP beginsWithSignature).eraseP
          beginsWithSignature).length : Int) ∧
      (∀ (s : PumpState) (de : DEBUG_EVENT) (mem : Memory) (bytes : List Char),
        de.dwDebugEventCode = OUTPUT_DEBUG_STRING_EVENT →
        readBytes mem de.lpDebugStringData de.nDebugStringLength = some bytes →
        (s.cygwin_startup_skip = 0 ∨ beginsWithSignature bytes = false) →
        iteration pi s (.event de mem) =
          ([.WaitForDebugEvent,
            .ReadProcessMemory pi.hProcess de.lpDebugStringData de.nDebugStringLength,
            .fwrite bytes,
            .ContinueDebugEvent de.dwProcessId de.dwThreadId DBG_CONTINUE],
            .next ⟨bytes, s.cygwin_startup_skip⟩)) := by
  have h := pump_forwarded pi evs initialPumpState 2 rfl hread
  rw [exceptFirst_two] at h
  refine ⟨h.1, by exact_mod_cast h.2, ?_⟩
  intro s de mem bytes hcode hbytes hor
  have hit := iteration_debugString pi s de mem hcode
  rw [relayBuffer_of_readable s de mem bytes hbytes] at hit
  rw [hit, if_neg]
  rintro ⟨hk, hp⟩
  rcases hor with h0 | hs
  · exact hk h0
  · simp [beginsWithSignature, hp] at hs

/-- Two banners, a string between them and a third banner after them: the
string and the third banner are forwarded. -/
theorem pump_forwards_all_but_two_banners_witness :
    AllReadable [debugStringEvent ['c', 'Y', 'g', '1'], debugStringEvent ['h', 'i'],
        otherEvent, debugStringEvent ['c', 'Y', 'g', '2'],
        debugStringEvent ['c', 'Y', 'g', '3'], exitEvent] ∧
      forwarded (pump samplePi [debugStringEvent ['c', 'Y', 'g', '1'],
        debugStringEvent ['h', 'i'], otherEvent, debugStringEvent ['c', 'Y', 'g', '2'],
        debugStringEvent ['c', 'Y', 'g', '3'], exitEvent] initialPumpState).trace =
        ['h', 'i', 'c', 'Y', 'g', '3'] :=
  have h : AllReadable [debugStringEvent ['c', 'Y', 'g', '1'], debugStringEvent ['h', 'i'],
      otherEvent, debugStringEvent ['c', 'Y', 'g', '2'],
      debugStringEvent ['c', 'Y', 'g', '3'], exitEvent] := by
    unfold AllReadable
    decide
  ⟨h, (pump_forwards_all_but_two_banners samplePi _ h).1.trans (by decide)⟩

/-! ## Acknowledgments -/

theorem acks_append (t u : List Action) : acks (t ++ u) = acks t ++ acks u := by
  simp [acks, List.filterMap_append]

/-- The calls of a pass that services an event form a servicing pass. -/
theorem stepTrace_servicing (pi : PROCESS_INFORMATION) (s : PumpState) (w : WaitOutcome)
    (h : isServiced w = true) : IsServicingPass w (stepTrace pi s w) := by
  cases w with
  | failed e => simp [isServiced] at h
  | event de mem =>
    have h1 : de.dwDebugEventCode ≠ EXIT_PROCESS_DEBUG_EVENT := by simpa [isServiced] using h
    unfold stepTrace
    by_cases h2 : de.dwDebugEventCode = OUTPUT_DEBUG_STRING_EVENT
    · rw [iteration_debugString pi s de mem h2]
      split
      · exact ⟨de, mem,
          [.ReadProcessMemory pi.hProcess de.lpDebugStringData de.nDebugStringLength],
          rfl, rfl, by simp [isWait, isAck]⟩
      · exact ⟨de, mem,
          [.ReadProcessMemory pi.hProcess de.lpDebugStringData de.nDebugStringLength,
            .fwrite (relayBuffer s de mem)],
          rfl, rfl, by simp [isWait, isAck]⟩
    · rw [iteration_other pi s de mem h1 h2]
      exact ⟨de, mem, [], rfl, rfl, by simp⟩

theorem acks_of_servicing (w : WaitOutcome) (pass : List Action) (h : IsServicingPass w pass) :
    (acks pass).map some = [eventIds w] := by
  obtain ⟨de, mem, body, rfl, rfl, hbody⟩ := h
  have hb : acks body = [] := by
    unfold acks
    rw [List.filterMap_eq_nil_iff]
    intro a ha
    have := (hbody a ha).2
    cases a <;> simp_all [isAck]
  have : acks (Action.WaitForDebugEvent ::
      (body ++ [.ContinueDebugEvent de.dwProcessId de.dwThreadId DBG_CONTINUE])) =
      acks body ++ [(de.dwProcessId, de.dwThreadId)] := by
    simp [acks, List.filterMap_append]
  rw [this, hb]
  rfl

theorem acks_of_passes (ws : List WaitOutcome) (passes : List (List Action))
    (hf : List.Forall₂ IsServicingPass ws passes) :
    (acks passes.flatten).map some = ws.map eventIds := by
  induction hf with
  | nil => rfl
  | cons hp _ ih =>
    rw [List.flatten_cons, acks_append, List.map_append, acks_of_servicing _ _ hp, ih]
    rfl

/-- The trace of the loop is one servicing pass per serviced answer, then a last
segment that begins with a wait and holds no acknowledgment. -/
theorem pump_passes (pi : PROCESS_INFORMATION) :
    ∀ (evs : List WaitOutcome) (s : PumpState),
      ∃ passes last, (pump pi evs s).trace = passes.flatten ++ last ∧
        List.Forall₂ IsServicingPass (serviced evs) passes ∧
        ∃ rest, last = .WaitForDebugEvent :: rest ∧
          ∀ a ∈ rest, isWait a = false ∧ isAck a = false
  | [], s => ⟨[], [.WaitForDebugEvent], by simp [pump], by simp [serviced], [], rfl, by simp⟩
  | .failed e :: ws, s =>
    ⟨[], [.WaitForDebugEvent, .GetLastError, .printf (.cannotWaitForDebugEvent e)],
      by rw [pump_cons_failed]; simp,
      by simp [serviced, List.takeWhile_cons, isServiced],
      [.GetLastError, .printf (.cannotWaitForDebugEvent e)], rfl, by simp [isWait, isAck]⟩
  | .event de mem :: ws, s => by
    by_cases h1 : de.dwDebugEventCode = EXIT_PROCESS_DEBUG_EVENT
    · exact ⟨[], [.WaitForDebugEvent], by rw [pump_cons_exit pi s de mem ws h1]; simp,
        by simp [serviced, List.takeWhile_cons, isServiced, h1], [], rfl, by simp⟩
    · have hw : isServiced (.event de mem) = true := by simp [isServiced, h1]
      obtain ⟨passes, last, ht, hf, hl⟩ := pump_passes pi ws (stepState pi s (.event de mem))
      refine ⟨stepTrace pi s (.event de mem) :: passes, last, ?_, ?_, hl⟩
      · rw [pump_cons_serviced pi s _ ws hw, ht]
        simp
      · simp only [serviced, List.takeWhile_cons, hw, if_true]
        exact List.Forall₂.cons (stepTrace_servicing pi s _ hw) hf

/-- C6 as stated fails: when the first event is the ExitProcess event (process
7, thread 8), one debug event has been received and `main` has made no
`ContinueDebugEvent` call at all. -/
theorem exit_event_not_acknowledged :
    (received [exitEvent]).filterMap eventIds = [(7, 8)] ∧
      acks (main (sampleWorld [exitEvent] 0) sampleArgv).trace = [] ∧
      (main (sampleWorld [exitEvent] 0) sampleArgv).outcome = .returned EXIT_SUCCESS := by
  decide

/-- C6, amended: every debug event the loop receives other than the ExitProcess
event that ends it is acknowledged exactly once, with its own process and
thread ids, after the wait that received it and before the next wait: the calls
of the loop are one servicing pass per such event, in order, followed by a last
segment (the wait that received the ExitProcess event, failed, or never
returned) without any acknowledgment. -/
theorem pump_acknowledges_serviced (pi : PROCESS_INFORMATION) (evs : List WaitOutcome)
    (s : PumpState) :
    (∃ passes last, (pump pi evs s).trace = passes.flatten ++ last ∧
        List.Forall₂ IsServicingPass (serviced evs) passes ∧
        ∃ rest, last = .WaitForDebugEvent :: rest ∧
          ∀ a ∈ rest, isWait a = false ∧ isAck a = false) ∧
      (acks (pump pi evs s).trace).map some = (serviced evs).map eventIds := by
  obtain ⟨passes, last, ht, hf, rest, hl, hrest⟩ := pump_passes pi evs s
  refine ⟨⟨passes, last, ht, hf, rest, hl, hrest⟩, ?_⟩
  have hlast : acks last = [] := by
    rw [hl]
    unfold acks
    rw [List.filterMap_eq_nil_iff]
    intro a ha
    rcases List.mem_cons.mp ha with rfl | ha
    · rfl
    · have := (hrest a ha).2
      cases a <;> simp_all [isAck]
  rw [ht, acks_append, hlast, List.append_nil]
  exact acks_of_passes _ _ hf

/-! ## The command line -/

theorem appendArg_eq (acc a : CString) : appendArg acc a = acc ++ specPiece a := by
  unfold appendArg specPiece
  split <;> simp

theorem foldl_appendArg (args : List CString) :
    ∀ acc : CString, args.foldl appendArg acc = acc ++ (args.map specPiece).flatten := by
  induction args with
  | nil => intro acc; simp
  | cons a rest ih =>
    intro acc
    rw [List.foldl_cons, ih, appendArg_eq]
    simp

theorem buildArglist_eq (argv : List CString) :
    buildArglist argv = ((argv.drop 1).map specPiece).flatten := by
  unfold buildArglist
  rw [foldl_appendArg]
  rfl

theorem specPiece_eq (a : CString) : specPiece a = quotedOrBare a ++ [' '] := by
  unfold specPiece quotedOrBare
  split <;> simp

theorem quotedOrBare_getLast (a : CString) : (quotedOrBare a).getLast? ≠ some ' ' := by
  unfold quotedOrBare
  split
  · rw [List.getLast?_concat]
    decide
  · rename_i h
    intro hl
    obtain ⟨ys, rfl⟩ := List.getLast?_eq_some_iff.mp hl
    exact h (by simp)

theorem quotedOrBare_eq_nil (a : CString) : quotedOrBare a = [] ↔ a = [] := by
  unfold quotedOrBare
  split
  · rename_i h
    constructor
    · intro h'
      simp at h'
    · rintro rfl
      simp at h
  · rfl

theorem pieces_getLast (args : List CString) (h : args ≠ []) :
    ((args.map specPiece).flatten).getLast? = some ' ' := by
  rcases List.eq_nil_or_concat args with rfl | ⟨init, l, rfl⟩
  · exact absurd rfl h
  · rw [List.concat_eq_append, List.map_append, List.flatten_append, List.map_singleton,
      List.flatten_singleton, specPiece_eq, ← List.append_assoc, List.getLast?_concat]

/-- The command line ends with exactly one space unless the last argument is
empty and another argument stands before it. -/
theorem pieces_endsWithOneSpace (args : List CString) (h : args ≠ []) :
    EndsWithOneSpace ((args.map specPiece).flatten) ↔
      (args.getLast? ≠ some [] ∨ args.length = 1) := by
  unfold EndsWithOneSpace
  rw [pieces_getLast args h]
  rcases List.eq_nil_or_concat args with rfl | ⟨init, l, rfl⟩
  · exact absurd rfl h
  · rw [List.concat_eq_append, List.map_append, List.flatten_append, List.map_singleton,
      List.flatten_singleton, specPiece_eq, ← List.append_assoc, List.dropLast_concat,
      List.getLast?_concat, List.getLast?_append]
    simp only [true_and, List.length_append, List.length_singleton]
    by_cases hl : l = []
    · subst hl
      have hq : quotedOrBare [] = [] := (quotedOrBare_eq_nil []).mpr rfl
      rw [hq]
      simp only [List.getLast?_nil, Option.none_or]
      by_cases hi : init = []
      · subst hi
        simp
      · rw [pieces_getLast init hi]
        have : init.length ≠ 0 := fun h0 => hi (List.eq_nil_of_length_eq_zero h0)
        simp [this]
    · have hq : quotedOrBare l ≠ [] := fun h0 => hl ((quotedOrBare_eq_nil l).mp h0)
      obtain ⟨c, hc⟩ := Option.ne_none_iff_exists'.mp
        (fun h0 => hq (List.getLast?_eq_none_iff.mp h0))
      have hne := quotedOrBare_getLast l
      rw [hc] at hne ⊢
      simp only [Option.or]
      constructor
      · intro _
        left
        simpa using hl
      · intro _
        exact hne

/-- C2 as stated fails: for `nimp-run x ""` the command line is `x` followed by
two spaces, so it does not end with exactly one trailing space. -/
theorem two_trailing_spaces :
    buildArglist [['n', 'i', 'm', 'p'], ['x'], []] = ['x', ' ', ' '] ∧
      ¬ EndsWithOneSpace (buildArglist [['n', 'i', 'm', 'p'], ['x'], []]) := by
  unfold EndsWithOneSpace
  decide

/-- C2, amended: for every argument vector with `argc >= 2` the command line
`main` passes to `CreateProcess` is the concatenation, in order, of one piece
per argument `argv[1..argc-1]` (the argument, between double quotes when it
holds a space, then one space; no character of an argument changed), it begins
with the piece of `argv[1]`, its last character is the space appended after the
last argument, and it ends with exactly one space unless the last argument is
empty and is not the only one. -/
theorem buildArglist_pieces (w : World) (argv : List CString) (h : 1 < argv.length) :
    buildArglist argv = ((argv.drop 1).map specPiece).flatten ∧
      Action.CreateProcess (((argv.drop 1).map specPiece).flatten) DEBUG_ONLY_THIS_PROCESS ∈
        (main w argv).trace ∧
      specPiece (argv.get ⟨1, h⟩) <+: buildArglist argv ∧
      (buildArglist argv).getLast? = some ' ' ∧
      (EndsWithOneSpace (buildArglist argv) ↔
        ((argv.drop 1).getLast? ≠ some [] ∨ argv.length = 2)) := by
  have hne : argv.drop 1 ≠ [] := by
    intro h0
    have := congrArg List.length h0
    simp at this
    omega
  have hb := buildArglist_eq argv
  refine ⟨hb, ?_, ?_, ?_, ?_⟩
  · rw [← hb]
    exact (main_calls_CreateProcess w argv h).2
  · rw [hb]
    obtain ⟨a0, a1, rest, rfl⟩ : ∃ a0 a1 rest, argv = a0 :: a1 :: rest := by
      match argv, h with
      | a0 :: a1 :: rest, _ => exact ⟨a0, a1, rest, rfl⟩
    simp
  · rw [hb]
    exact pieces_getLast _ hne
  · rw [hb, pieces_endsWithOneSpace _ hne]
    have : (argv.drop 1).length = 1 ↔ argv.length = 2 := by
      rw [List.length_drop]
      omega
    rw [this]

/-- The command line of `nimp-run "my app" -v`. -/
theorem buildArglist_pieces_witness :
    buildArglist [['n', 'i', 'm', 'p'], ['m', 'y', ' ', 'a', 'p', 'p'], ['-', 'v']] =
        ['"', 'm', 'y', ' ', 'a', 'p', 'p', '"', ' ', '-', 'v', ' '] ∧
      EndsWithOneSpace
        (buildArglist [['n', 'i', 'm', 'p'], ['m', 'y', ' ', 'a', 'p', 'p'], ['-', 'v']]) :=
  ⟨(buildArglist_pieces noProcessWorld
      [['n', 'i', 'm', 'p'], ['m', 'y', ' ', 'a', 'p', 'p'], ['-', 'v']] (by decide)).1.trans
      (by decide),
    (buildArglist_pieces noProcessWorld
      [['n', 'i', 'm', 'p'], ['m', 'y', ' ', 'a', 'p', 'p'], ['-', 'v']]
      (by decide)).2.2.2.2.mpr (Or.inl (by decide))⟩

/-! ## Re-splitting the command line -/

theorem specResplit_nil (fuel : Nat) : specResplit fuel [] = [] := by
  cases fuel <;> rfl

/-- A non-empty bare token followed by its separating space is split off
whole. -/
theorem specResplit_bare (fuel : Nat) (a S : List Char) (hne : a ≠ []) (hq : '"' ∉ a)
    (hs : ' ' ∉ a) :
    specResplit (fuel + 2) (a ++ ' ' :: S) = a :: specResplit fuel S := by
  have hall : ∀ x ∈ a, decide (x ≠ ' ') = true := by
    intro x hx
    simpa using fun h : x = ' ' => hs (h ▸ hx)
  have htake : (a ++ ' ' :: S).takeWhile (fun x => decide (x ≠ ' ')) = a := by
    rw [List.takeWhile_append_of_pos hall]
    simp
  have hdrop : (a ++ ' ' :: S).dropWhile (fun x => decide (x ≠ ' ')) = ' ' :: S := by
    rw [List.dropWhile_append_of_pos hall]
    simp
  cases a with
  | nil => exact absurd rfl hne
  | cons c a' =>
    have hc : c ≠ '"' := fun h => hq (h ▸ List.mem_cons_self _ _)
    have hc' : c ≠ ' ' := fun h => hs (h ▸ List.mem_cons_self _ _)
    rw [List.cons_append] at htake hdrop ⊢
    rw [specResplit, if_neg hc', if_neg hc, htake, hdrop, specResplit, if_pos rfl]

/-- A token between double quotes followed by its separating space is split off
whole, without its quotes. -/
theorem specResplit_quoted (fuel : Nat) (a S : List Char) (hq : '"' ∉ a) :
    specResplit (fuel + 2) ('"' :: (a ++ '"' :: ' ' :: S)) = a :: specResplit fuel S := by
  have hall : ∀ x ∈ a, decide (x ≠ '"') = true := by
    intro x hx
    simpa using fun h : x = '"' => hq (h ▸ hx)
  have htake : (a ++ '"' :: ' ' :: S).takeWhile (fun x => decide (x ≠ '"')) = a := by
    rw [List.takeWhile_append_of_pos hall]
    simp
  have hdrop : (a ++ '"' :: ' ' :: S).dropWhile (fun x => decide (x ≠ '"')) =
      '"' :: ' ' :: S := by
    rw [List.dropWhile_append_of_pos hall]
    simp
  rw [specResplit, if_neg (by decide), if_pos rfl, htake, hdrop, List.drop_one, List.tail_cons,
    specResplit, if_pos rfl]

/-- Re-splitting the pieces of non-empty quote-free arguments gives the
arguments back. -/
theorem specResplit_pieces :
    ∀ (args : List CString) (fuel : Nat), 2 * args.length ≤ fuel →
      (∀ a ∈ args, '"' ∉ a) → (∀ a ∈ args, a ≠ []) →
      specResplit fuel ((args.map specPiece).flatten) = args
  | [], fuel, _, _, _ => by simp [specResplit_nil]
  | a :: rest, 0, h, _, _ => by simp at h
  | a :: rest, 1, h, _, _ => by
    simp at h
    omega
  | a :: rest, fuel + 2, h, hq, hne => by
    have ha : '"' ∉ a := hq a (List.mem_cons_self _ _)
    have ih := specResplit_pieces rest fuel
      (by simp only [List.length_cons] at h; omega)
      (fun x hx => hq x (List.mem_cons_of_mem _ hx))
      (fun x hx => hne x (List.mem_cons_of_mem _ hx))
    rw [List.map_cons, List.flatten_cons]
    by_cases hs : ' ' ∈ a
    · have hp : specPiece a ++ (rest.map specPiece).flatten =
          '"' :: (a ++ '"' :: ' ' :: (rest.map specPiece).flatten) := by
        simp [specPiece, hs]
      rw [hp, specResplit_quoted fuel a _ ha, ih]
    · have hp : specPiece a ++ (rest.map specPiece).flatten =
          a ++ ' ' :: (rest.map specPiece).flatten := by
        simp [specPiece, hs]
      rw [hp, specResplit_bare fuel a _ (hne a (List.mem_cons_self _ _)) ha hs, ih]

theorem length_pieces (args : List CString) (hne : ∀ a ∈ args, a ≠ []) :
    2 * args.length ≤ ((args.map specPiece).flatten).length := by
  induction args with
  | nil => simp
  | cons a rest ih =>
    have ha : 1 ≤ a.length := List.length_pos.mpr (hne a (List.mem_cons_self _ _))
    have hq : a.length ≤ (quotedOrBare a).length := by
      unfold quotedOrBare
      split
      · simp only [List.length_append, List.length_singleton]
        omega
      · exact Nat.le_refl _
    have : 2 ≤ (specPiece a).length := by
      rw [specPiece_eq, List.length_append, List.length_singleton]
      omega
    have ih' := ih (fun x hx => hne x (List.mem_cons_of_mem _ hx))
    simp only [List.map_cons, List.flatten_cons, List.length_append, List.length_cons]
    omega

/-- C3 as stated fails: for `nimp-run "a b" ""` (one argument holds a space, none
a double quote) the command line is `"a b"` followed by two spaces, and
re-splitting it gives the one token `a b`: the empty argument is lost. -/
theorem empty_argument_lost :
    (∃ a ∈ [['n', 'i', 'm', 'p'], ['a', ' ', 'b'], []].drop 1, ' ' ∈ a) ∧
      (∀ a ∈ [['n', 'i', 'm', 'p'], ['a', ' ', 'b'], []].drop 1, '"' ∉ a) ∧
      buildArglist [['n', 'i', 'm', 'p'], ['a', ' ', 'b'], []] =
        ['"', 'a', ' ', 'b', '"', ' ', ' '] ∧
      specResplitCommandLine (buildArglist [['n', 'i', 'm', 'p'], ['a', ' ', 'b'], []]) =
        [['a', ' ', 'b']] ∧
      specResplitCommandLine (buildArglist [['n', 'i', 'm', 'p'], ['a', ' ', 'b'], []]) ≠
        [['n', 'i', 'm', 'p'], ['a', ' ', 'b'], []].drop 1 := by
  refine ⟨⟨['a', ' ', 'b'], by decide, by decide⟩, by decide, by decide, by decide, by decide⟩

/-- C3, amended: for every argument vector with at least one argument holding a
space, none holding a double quote and none empty, the command line `main`
passes to `CreateProcess`, re-split by the "double-quoted-or-bare,
space-separated" rules, gives exactly the arguments `argv[1..argc-1]` back. -/
theorem specResplit_buildArglist (w : World) (argv : List CString)
    (hspace : ∃ a ∈ argv.drop 1, ' ' ∈ a) (hquote : ∀ a ∈ argv.drop 1, '"' ∉ a)
    (hnonempty : ∀ a ∈ argv.drop 1, a ≠ []) :
    Action.CreateProcess (buildArglist argv) DEBUG_ONLY_THIS_PROCESS ∈ (main w argv).trace ∧
      specResplitCommandLine (buildArglist argv) = argv.drop 1 := by
  have h : 1 < argv.length := by
    obtain ⟨a, ha, -⟩ := hspace
    have := List.length_pos_of_mem ha
    rw [List.length_drop] at this
    omega
  refine ⟨(main_calls_CreateProcess w argv h).2, ?_⟩
  unfold specResplitCommandLine
  rw [buildArglist_eq]
  exact specResplit_pieces _ _ (length_pieces _ hnonempty) hquote hnonempty

/-- The command line of `nimp-run "my app" -v` splits back into its two
arguments. -/
theorem specResplit_buildArglist_witness :
    Action.CreateProcess
          (buildArglist [['n', 'i', 'm', 'p'], ['m', 'y', ' ', 'a', 'p', 'p'], ['-', 'v']])
          DEBUG_ONLY_THIS_PROCESS ∈
        (main noProcessWorld
          [['n', 'i', 'm', 'p'], ['m', 'y', ' ', 'a', 'p', 'p'], ['-', 'v']]).trace ∧
      specResplitCommandLine
          (buildArglist [['n', 'i', 'm', 'p'], ['m', 'y', ' ', 'a', 'p', 'p'], ['-', 'v']]) =
        [['m', 'y', ' ', 'a', 'p', 'p'], ['-', 'v']] :=
  specResplit_buildArglist noProcessWorld
    [['n', 'i', 'm', 'p'], ['m', 'y', ' ', 'a', 'p', 'p'], ['-', 'v']]
    ⟨['m', 'y', ' ', 'a', 'p', 'p'], by decide, by decide⟩ (by decide) (by decide)

end NimpRun
